import Mathlib

/-!
Verification development for the GomokuHelper synchronization-and-caching
engine.  The definitions below are a shallow embedding of the Python sources:

* `src/engine/board.py`          — `ChessBoard` and its operations
* `src/engine/util.py`           — coordinate translation, `AnalyzedLRUCache`
* `src/engine/algorithm/katago/katago_gtp_engine.py`
                                 — `KataGoGTPEngine.query` / `handler_stdout`

A board is modelled as a size together with a total cell function;
only cells `(i, j)` with `i < size`, `j < size` correspond to the numpy
array, and every operation below reads or writes only such cells.
Cell values follow the source: `0` empty, `BLACK = 1`, `WHITE = 2`.
Python exceptions are modelled with `Except String` / explicit error slots.
-/

set_option autoImplicit false

namespace GomokuHelper

def BLACK : Nat := 1
def WHITE : Nat := 2

/-- Shallow embedding of `ChessBoard` (board.py): a square grid of cells.
`board i j` is the entry `self.board[i, j]`; the numpy array has shape
`(size, size)`, so only indices below `size` are meaningful. -/
structure ChessBoard where
  size : Nat
  board : Nat → Nat → Nat

/-- `ChessBoard(size)` with no board argument: the all-zero grid. -/
def mkBoard (size : Nat) : ChessBoard :=
  ⟨size, fun _ _ => 0⟩

/-- `ChessBoard.reset`: `self.board = np.zeros((size, size))`. -/
def ChessBoard.reset (b : ChessBoard) : ChessBoard :=
  ⟨b.size, fun _ _ => 0⟩

/-- Functional update of one cell of the grid. -/
def ChessBoard.setCell (b : ChessBoard) (row col v : Nat) : ChessBoard :=
  ⟨b.size, fun i j => if i = row ∧ j = col then v else b.board i j⟩

/-- `ChessBoard.place_piece`: fails (returning `false` and leaving the board
unchanged) when out of bounds or occupied, otherwise writes `chess`. -/
def ChessBoard.place_piece (b : ChessBoard) (row col chess : Nat) :
    Bool × ChessBoard :=
  if row < b.size ∧ col < b.size then
    if b.board row col ≠ 0 then (false, b)
    else (true, b.setCell row col chess)
  else (false, b)

/-- `ChessBoard.get_size`: `self.board.shape[0]`. -/
def ChessBoard.get_size (b : ChessBoard) : Nat := b.size

/-- `ChessBoard.equals`: size check followed by `np.array_equal`, i.e.
cell-for-cell equality over the `size × size` grid. -/
def ChessBoard.equals (b other : ChessBoard) : Bool :=
  b.size == other.size &&
    (List.range b.size).all fun i =>
      (List.range b.size).all fun j => b.board i j == other.board i j

/-- `np.count_nonzero(self.board == v)`: number of grid cells holding `v`
(for nonzero `v`; the claims only count stones). -/
def ChessBoard.countVal (b : ChessBoard) (v : Nat) : Nat :=
  ((List.range b.size).map fun i =>
    ((List.range b.size).filter fun j => b.board i j == v).length).sum

/-- `ChessBoard.is_effective_chessboard`:
`abs(white - black) <= 1 and black >= white`. -/
def ChessBoard.is_effective_chessboard (b : ChessBoard) : Bool :=
  ((b.countVal WHITE : Int) - (b.countVal BLACK : Int)).natAbs ≤ 1 &&
    b.countVal BLACK ≥ b.countVal WHITE

/-- `ChessBoard.determine_current_player`: raises unless the grid is 15×15
and `white ≤ black ≤ white + 1`; returns `BLACK` on equal counts, else
`WHITE`. -/
def ChessBoard.determine_current_player (b : ChessBoard) : Except String Nat :=
  if b.size ≠ 15 then .error "棋盘必须是15x15的numpy数组"
  else
    let black_count := b.countVal BLACK
    let white_count := b.countVal WHITE
    if white_count > black_count then
      .error "无效的棋盘状态：白棋比黑棋多"
    else if black_count - white_count > 1 then
      .error "无效的棋盘状态：黑棋比白棋多超过1个"
    else if black_count = white_count then .ok BLACK
    else .ok WHITE

/-- `ChessBoard.diff`: raises on a size mismatch, otherwise scans the grid
in row-major order and emits `(color, (i, j))` for each cell where exactly
one of the two boards holds a stone (the color being the stone present).
An entry is encoded as `(color, i, j)`. -/
def ChessBoard.diff (b other : ChessBoard) :
    Except String (List (Nat × Nat × Nat)) :=
  if b.size ≠ other.size then .error "两个棋盘大小不一致"
  else
    .ok <| (List.range b.size).flatMap fun i =>
      (List.range b.size).flatMap fun j =>
        if b.board i j ≠ 0 ∧ other.board i j = 0 then [(b.board i j, i, j)]
        else if b.board i j = 0 ∧ other.board i j ≠ 0 then
          [(other.board i j, i, j)]
        else []

/-- `ChessBoard.has_extra_pieces`: raises on a size mismatch, otherwise
reports whether `other` holds a stone at some cell that is empty in `self`. -/
def ChessBoard.has_extra_pieces (b other : ChessBoard) : Except String Bool :=
  if b.size ≠ other.size then .error "两个棋盘大小不一致"
  else
    .ok <| (List.range b.size).any fun i =>
      (List.range b.size).any fun j =>
        other.board i j != 0 && b.board i j == 0

/-- `ChessBoard.get_hash`: md5 of `self.board.tobytes()`.  The digest is
modelled by the data it is computed from: the row-major list of cell
values (md5 is deterministic, and collisions play no role in the claims). -/
def ChessBoard.get_hash (b : ChessBoard) : List Nat :=
  (List.range b.size).flatMap fun i =>
    (List.range b.size).map fun j => b.board i j

/-!  Coordinate translation (util.py).  A GTP coordinate string such as
`"J10"` is one column letter followed by a decimal row number; it is
modelled by the pair (code point of the letter, row number), which is what
`np_to_gtp` produces (`chr`/f-string) and `gtp_2_np` consumes
(`gtp[0]` / `int(gtp[1:])`). -/

/-- `str.upper()` on a single ASCII character, by code point. -/
def pyUpper (c : Nat) : Nat :=
  if 97 ≤ c ∧ c ≤ 122 then c - 32 else c

/-- `np_to_gtp(row, col, size)`: column letter `chr(ord('A')+col)` for
`col < 8`, skipping `'I'` (code 73) afterwards, and row number
`size - row`. -/
def np_to_gtp (row col size : Nat) : Nat × Nat :=
  (if col < 8 then 65 + col else 65 + col + 1, size - row)

/-- `gtp_2_np(gtp, size)`: upper-case the column letter, undo the `'I'`
skip, and recover the row as `size - row_number`.  Returns `(row, col)`. -/
def gtp_2_np (gtp : Nat × Nat) (size : Nat) : Nat × Nat :=
  let column_letter := pyUpper gtp.1
  let col := if column_letter < 73 then column_letter - 65
             else column_letter - 65 - 1
  (size - gtp.2, col)

/-- `chess2color`: `"B"` for black, `"W"` for white, `"PASS"` otherwise. -/
def chess2color (chess : Nat) : String :=
  if chess = BLACK then "B" else if chess = WHITE then "W" else "PASS"

/-- `MoveItem` (board.py): one ranked move candidate.  `gtp` keeps the raw
protocol coordinate string; `weight` and `winrate` are carried through from
the parsed tokens without arithmetic, so they are kept as raw tokens. -/
structure MoveItem where
  move : Nat × Nat
  gtp : String
  visits : Int
  weight : String
  winrate : String
  deriving DecidableEq

/-- A cached value: `(current_play, best_move_list)`. -/
abbrev CacheVal := String × List MoveItem

/-- The cache key type: the board hash (see `ChessBoard.get_hash`). -/
abbrev HashKey := List Nat

/-- `AnalyzedLRUCache` (util.py): a bounded LRU map with hit/miss counters.
`entries` is kept most-recently-used first. -/
structure AnalyzedLRUCache where
  maxsize : Nat
  entries : List (HashKey × CacheVal)
  hits : Nat
  misses : Nat

/-- First value bound to `k`, scanning from the most recently used entry. -/
def entriesLookup : List (HashKey × CacheVal) → HashKey → Option CacheVal
  | [], _ => none
  | (k', v) :: rest, k => if k' = k then some v else entriesLookup rest k

/-- `AnalyzedLRUCache.get(key, default)`: on a hit the value is returned,
the entry moves to the most-recently-used position and `hits` increments;
on a miss `default` is returned and `misses` increments.  Returns the
value together with the updated cache (Python mutates in place). -/
def AnalyzedLRUCache.get (c : AnalyzedLRUCache) (k : HashKey)
    (default : Option CacheVal) : Option CacheVal × AnalyzedLRUCache :=
  match entriesLookup c.entries k with
  | some v =>
      (some v,
       { c with
          entries := (k, v) :: c.entries.filter fun e => decide (e.1 ≠ k),
          hits := c.hits + 1 })
  | none => (default, { c with misses := c.misses + 1 })

/-- `cache[key] = value` (`LRUCache.__setitem__`): any existing binding is
replaced, the new entry becomes most recently used, and the least recently
used entries beyond `maxsize` are evicted. -/
def AnalyzedLRUCache.set (c : AnalyzedLRUCache) (k : HashKey) (v : CacheVal) :
    AnalyzedLRUCache :=
  { c with
      entries :=
        ((k, v) :: c.entries.filter fun e => decide (e.1 ≠ k)).take c.maxsize }

/-- A command line written to the KataGo process's stdin. -/
inductive Command where
  | play (color : String) (gtp : Nat × Nat)
  | clear_board
  | stop
  | kata_analyze (color : String) (cal_time : Nat)
  deriving DecidableEq

/-- The mutable fields of `KataGoGTPEngine` that the claims concern. -/
structure EngineState where
  cache_board : ChessBoard
  cache : AnalyzedLRUCache
  query_total : Nat
  refresh_total : Nat
  visits_threshold : Int
  best_moves_shared : Option CacheVal

/-- The replay loop of `query`: for each diff entry `(chess, row, col)`,
`cache_board.place_piece(row, col, chess)` (the `play` commands it emits
are produced separately by `playCommands`). -/
def replay (b : ChessBoard) (l : List (Nat × Nat × Nat)) : ChessBoard :=
  l.foldl (fun bd e => (bd.place_piece e.2.1 e.2.2 e.1).2) b

/-- The `play` commands the replay loop sends, in diff order:
`play <chess2color chess> <np_to_gtp row col board_size>`. -/
def playCommands (l : List (Nat × Nat × Nat)) (board_size : Nat) :
    List Command :=
  l.map fun e => Command.play (chess2color e.1) (np_to_gtp e.2.1 e.2.2 board_size)

/-- Result of the sync phase: the error raised (if any), the engine state
after it, and the commands sent to the process, in order. -/
structure SyncOutcome where
  err : Option String
  state : EngineState
  sent : List Command

/-- The sync phase of `KataGoGTPEngine.query` (katago_gtp_engine.py,
lines 71–88): if the shadow `cache_board` holds a stone at a cell that is
empty in `initial_board`, the shadow is reset, `clear_board` is sent and
the refresh counter increments; then the diff is replayed, one
`play` command per entry.  Exceptions from `has_extra_pieces` / `diff`
propagate with the state as mutated so far. -/
def syncPhase (s : EngineState) (initial_board : ChessBoard) : SyncOutcome :=
  match initial_board.has_extra_pieces s.cache_board with
  | .error e => ⟨some e, s, []⟩
  | .ok extra =>
    if extra then
      match initial_board.diff s.cache_board.reset with
      | .error e => ⟨some e, { s with cache_board := s.cache_board.reset }, []⟩
      | .ok dl =>
          ⟨none,
           { s with cache_board := replay s.cache_board.reset dl,
                    refresh_total := s.refresh_total + 1 },
           Command.clear_board :: playCommands dl initial_board.get_size⟩
    else
      match initial_board.diff s.cache_board with
      | .error e => ⟨some e, s, []⟩
      | .ok dl =>
          ⟨none, { s with cache_board := replay s.cache_board dl },
           playCommands dl initial_board.get_size⟩

/-- One record produced by `parse_gtp_info` for an `info` line, restricted
to the keys `handler_stdout` reads.  `move` is the raw coordinate token;
`visits` is the value of `int(item.get('visits'))` (the only field any
arithmetic is done on); `weight` and `winrate` are carried through as raw
tokens (`float()` on `winrate` performs no arithmetic the claims touch). -/
structure InfoRecord where
  move : String
  visits : Int
  weight : String
  winrate : String

/-- `int(...)` on the tail of a coordinate token: a nonempty run of decimal
digits parses to its value, anything else raises. -/
def parseDecimal (cs : List Char) : Option Nat :=
  if cs ≠ [] ∧ cs.all Char.isDigit then
    some (cs.foldl (fun acc c => acc * 10 + (c.toNat - 48)) 0)
  else none

/-- The candidate-building loop of `handler_stdout`: for each of the first
seven records, skip the record when its coordinate starts with `'p'`
(a pass), otherwise translate the coordinate with `gtp_2_np` and build a
`MoveItem`, preserving input order. -/
def buildBestMoves (size : Nat) : List InfoRecord → Except String (List MoveItem)
  | [] => .ok []
  | item :: rest =>
    match item.move.toList with
    | [] => .error "string index out of range"
    | c :: tailChars =>
      if c = 'p' then buildBestMoves size rest
      else
        match parseDecimal tailChars with
        | none => .error "invalid literal for int"
        | some n =>
          match buildBestMoves size rest with
          | .error e => .error e
          | .ok l =>
              .ok (⟨gtp_2_np (c.toNat, n) size, item.move, item.visits,
                    item.weight, item.winrate⟩ :: l)

/-- `len(best_move_list) != 0 and int(best_move_list[0].visits) > threshold`. -/
def topVisitsExceeds (l : List MoveItem) (t : Int) : Bool :=
  match l with
  | [] => false
  | top :: _ => decide (top.visits > t)

/-- Processing of one parsed `info` line by the reader loop
(`handler_stdout`, katago_gtp_engine.py lines 140–156): compute the
current player, build the candidate list from the first seven records,
and, exactly when the list is nonempty with its top candidate's visits
strictly above the threshold, send `stop` and insert the result into the
cache; in every non-raising case the shared latest-analysis slot is
overwritten.  Returns the updated state and the commands sent. -/
def handler_line (s : EngineState) (res_list : List InfoRecord) :
    Except String (EngineState × List Command) :=
  match s.cache_board.determine_current_player with
  | .error e => .error e
  | .ok p =>
    let current_play := chess2color p
    match buildBestMoves s.cache_board.get_size (res_list.take 7) with
    | .error e => .error e
    | .ok best_move_list =>
      if topVisitsExceeds best_move_list s.visits_threshold then
        .ok ({ s with
                cache := s.cache.set s.cache_board.get_hash
                  (current_play, best_move_list),
                best_moves_shared := some (current_play, best_move_list) },
             [Command.stop])
      else
        .ok ({ s with best_moves_shared := some (current_play, best_move_list) },
             [])

/-- Result of one `query` call: the returned value (or the exception), the
engine state after the call, and the commands sent. -/
structure QueryOutcome where
  result : Except String CacheVal
  state : EngineState
  sent : List Command

/-- `KataGoGTPEngine.query`: increment the query counter, run the sync
phase, assert post-replay equality (`raise "System ERROR!!!"` on failure),
then try the result cache by board hash; on a miss, send
`kata-analyze <current player> 10` and return the shared latest-analysis
slot (unpacking the initial `None` raises). -/
def query (s0 : EngineState) (initial_board : ChessBoard) : QueryOutcome :=
  let s := { s0 with query_total := s0.query_total + 1 }
  let sync := syncPhase s initial_board
  match sync.err with
  | some e => ⟨.error e, sync.state, sync.sent⟩
  | none =>
    let s := sync.state
    if s.cache_board.equals initial_board = false then
      ⟨.error "System ERROR!!!", s, sync.sent⟩
    else
      let board_hash := s.cache_board.get_hash
      let got := s.cache.get board_hash none
      let s := { s with cache := got.2 }
      match got.1 with
      | some val => ⟨.ok val, s, sync.sent⟩
      | none =>
        match s.cache_board.determine_current_player with
        | .error e => ⟨.error e, s, sync.sent⟩
        | .ok p =>
          let sent := sync.sent ++ [Command.kata_analyze (chess2color p) 10]
          match s.best_moves_shared with
          | none => ⟨.error "TypeError: cannot unpack NoneType", s, sent⟩
          | some val => ⟨.ok val, s, sent⟩

/-! ## Derived definitions used by the specifications -/

/-- The contribution of cell `(i, j)` to `ChessBoard.diff`. -/
def diffCell (A B : ChessBoard) (i j : Nat) : List (Nat × Nat × Nat) :=
  if A.board i j ≠ 0 ∧ B.board i j = 0 then [(A.board i j, i, j)]
  else if A.board i j = 0 ∧ B.board i j ≠ 0 then [(B.board i j, i, j)]
  else []

/-- The list `ChessBoard.diff` returns on equal-size boards, spelled out. -/
def diffList (A B : ChessBoard) : List (Nat × Nat × Nat) :=
  (List.range A.size).flatMap fun i =>
    (List.range A.size).flatMap fun j => diffCell A B i j

/-- The boolean grid scan performed by `has_extra_pieces`. -/
def extraScan (A S : ChessBoard) : Bool :=
  (List.range A.size).any fun i =>
    (List.range A.size).any fun j =>
      S.board i j != 0 && A.board i j == 0

/-- The value of the first entry of `l` placed at `(i, j)`, if any. -/
def firstAt : List (Nat × Nat × Nat) → Nat → Nat → Option Nat
  | [], _, _ => none
  | e :: l, i, j => if e.2.1 = i ∧ e.2.2 = j then some e.1 else firstAt l i j

/-- The reset trigger of the sync protocol: the shadow `S` holds a stone at
some in-range cell that is empty in the observed board `A`. -/
def ExtraProp (A S : ChessBoard) : Prop :=
  ∃ i, i < A.size ∧ ∃ j, j < A.size ∧ S.board i j ≠ 0 ∧ A.board i j = 0

/-- The stones of `A` in row-major scan order, as diff-style entries. -/
def rowMajorStones (A : ChessBoard) : List (Nat × Nat × Nat) :=
  (List.range A.size).flatMap fun i =>
    (List.range A.size).flatMap fun j =>
      if A.board i j ≠ 0 then [(A.board i j, i, j)] else []

/-- The colors of the `play` commands in a command list, in order. -/
def playColors : List Command → List String
  | [] => []
  | Command.play color _ :: rest => color :: playColors rest
  | _ :: rest => playColors rest

/-- Whether a color sequence strictly alternates, starting with `"B"` when
the flag is `true`. -/
def alternatesBW : Bool → List String → Bool
  | _, [] => true
  | b, color :: rest =>
      (color == if b then "B" else "W") && alternatesBW (!b) rest

/-! ## Concrete fixtures for witnesses and counterexamples -/

/-- An empty result cache of the engine's default capacity. -/
def emptyCache : AnalyzedLRUCache := ⟨1000, [], 0, 0⟩

/-- C10 board scenario: an empty 15×15 board after Black plays (7,7). -/
def c10Board : ChessBoard := ((mkBoard 15).place_piece 7 7 BLACK).2

/-- A concrete cache with one entry and nonzero counters. -/
def c9Cache : AnalyzedLRUCache := ⟨1000, [([0], ("B", []))], 3, 4⟩

/-- Concrete board for the C6 witness: a lone black stone. -/
def c6A : ChessBoard := ⟨1, fun _ _ => BLACK⟩

/-- The empty 1×1 board used opposite `c6A`. -/
def c6B : ChessBoard := mkBoard 1

/-- A 1×1 shadow board holding a white stone. -/
def c1Shadow : ChessBoard := ⟨1, fun _ _ => WHITE⟩

/-- A 1×1 observed board holding a black stone. -/
def c1Observed : ChessBoard := ⟨1, fun _ _ => BLACK⟩

/-- Engine state whose shadow board is `c1Shadow`. -/
def c1State : EngineState := ⟨c1Shadow, emptyCache, 0, 0, 10000, none⟩

/-- Engine state with an empty 1×1 shadow board. -/
def c1EmptyState : EngineState := ⟨mkBoard 1, emptyCache, 0, 0, 10000, none⟩

/-- Engine state with an empty 1×1 shadow board whose cache already
holds the empty board's hash. -/
def c2State : EngineState :=
  ⟨mkBoard 1, ⟨1000, [((mkBoard 1).get_hash, ("B", []))], 0, 0⟩, 0, 0,
   10000, none⟩

/-- A full 2×2 board: two black stones on row 0, two white on row 1.  Its
counts satisfy the alternation invariant, but its row-major color sequence
is B, B, W, W. -/
def c4Board : ChessBoard := ⟨2, fun i _ => if i = 0 then BLACK else WHITE⟩

/-- Engine state with an empty 2×2 shadow board. -/
def c4State : EngineState := ⟨mkBoard 2, emptyCache, 0, 0, 10000, none⟩

/-- A 2×2 shadow holding one white stone at (1,1). -/
def c4Shadow : ChessBoard :=
  ⟨2, fun i j => if i = 1 ∧ j = 1 then WHITE else 0⟩

/-- A 2×2 observed board holding one black stone at (0,0). -/
def c4Observed : ChessBoard :=
  ⟨2, fun i j => if i = 0 ∧ j = 0 then BLACK else 0⟩

/-- Engine state whose shadow board is `c4Shadow`. -/
def c4ResetState : EngineState := ⟨c4Shadow, emptyCache, 0, 0, 10000, none⟩

/-- Engine state with an empty 15×15 shadow board and threshold 1000. -/
def c7State : EngineState := ⟨mkBoard 15, emptyCache, 0, 0, 1000, none⟩

/-- A parsed record for `move J10` with 500 visits. -/
def c7Rec500 : InfoRecord := ⟨"J10", 500, "1", "0.61"⟩

/-- A parsed record for `move J10` with 5000 visits. -/
def c7Rec5000 : InfoRecord := ⟨"J10", 5000, "1", "0.61"⟩

/-- The `MoveItem` built from `c7Rec500` (J10 is cell (5,8) on 15×15). -/
def c7Item500 : MoveItem := ⟨(5, 8), "J10", 500, "1", "0.61"⟩

/-- The `MoveItem` built from `c7Rec5000`. -/
def c7Item5000 : MoveItem := ⟨(5, 8), "J10", 5000, "1", "0.61"⟩

/-- The engine state after processing `c7Rec500`: shared slot updated,
cache untouched. -/
def c7Out500 : EngineState :=
  { c7State with best_moves_shared := some ("B", [c7Item500]) }

/-- The engine state after processing `c7Rec5000`: result cached and
shared slot updated. -/
def c7Out5000 : EngineState :=
  { c7State with
      cache := c7State.cache.set c7State.cache_board.get_hash
        ("B", [c7Item5000]),
      best_moves_shared := some ("B", [c7Item5000]) }

/-- Engine state with an empty 15×15 shadow board. -/
def c8State : EngineState := ⟨mkBoard 15, emptyCache, 0, 0, 10000, none⟩

/-! ## Claim C5: coordinate translation round-trip -/

/-- C5 (corrected): for every board size and in-bounds `(row, col)` with
`col ≤ 30`, translating to the external coordinate (column letter skipping
`'I'`, one-based row from the bottom) and back is the identity, and column
index 8 maps to the letter `'J'` (code 74).  (For `col = 31` the column
character is lowercase `'a'` and `upper()` breaks the round-trip, so the
claim's "for every board size" fails at size 32.) -/
theorem claimC5_roundtrip (size row col : Nat) (hrow : row < size)
    (hcol : col ≤ 30) :
    gtp_2_np (np_to_gtp row col size) size = (row, col) ∧
    (np_to_gtp row 8 size).1 = 74 := by
  refine ⟨?_, rfl⟩
  simp only [np_to_gtp, gtp_2_np, pyUpper, Prod.mk.injEq]
  refine ⟨by omega, ?_⟩
  split_ifs <;> omega

/-- Witness for C5: the round-trip at size 15, row 8, col 8. -/
theorem claimC5_roundtrip_witness :
    ((8 : Nat) < 15 ∧ (8 : Nat) ≤ 30) ∧
    (gtp_2_np (np_to_gtp 8 8 15) 15 = (8, 8) ∧ (np_to_gtp 8 8 15).1 = 74) :=
  ⟨by decide, claimC5_roundtrip 15 8 8 (by decide) (by decide)⟩

/-- Counterexample to C5 as stated: on a size-32 board the in-bounds cell
`(0, 31)` does not round-trip (its column letter is lowercase `'a'`,
which `upper()` maps to `'A'`, i.e. column 0). -/
theorem claimC5_counterexample :
    (0 : Nat) < 32 ∧ (31 : Nat) < 32 ∧
    gtp_2_np (np_to_gtp 0 31 32) 32 ≠ (0, 31) := by
  decide

/-! ## Claim C10: determine_current_player -/

/-- C10: `determine_current_player` raises for every board whose grid is not
15×15; on a 15×15 board it returns Black when the black and white counts
are equal, White when black exceeds white by one, and raises when the
invariant is violated. -/
theorem claimC10_current_player (b : ChessBoard) :
    (b.size ≠ 15 → ∃ e, b.determine_current_player = .error e) ∧
    (b.size = 15 →
      (b.countVal BLACK = b.countVal WHITE →
        b.determine_current_player = .ok BLACK) ∧
      (b.countVal BLACK = b.countVal WHITE + 1 →
        b.determine_current_player = .ok WHITE) ∧
      ((b.countVal WHITE > b.countVal BLACK ∨
        b.countVal BLACK > b.countVal WHITE + 1) →
        ∃ e, b.determine_current_player = .error e)) := by
  simp only [ChessBoard.determine_current_player]
  constructor
  · intro h; rw [if_pos h]; exact ⟨_, rfl⟩
  · intro h15
    rw [if_neg (by omega)]
    refine ⟨?_, ?_, ?_⟩
    · intro heq
      rw [if_neg (by omega), if_neg (by omega), if_pos heq]
    · intro hsucc
      rw [if_neg (by omega), if_neg (by omega), if_neg (by omega)]
    · rintro (hb | hb)
      · rw [if_pos hb]; exact ⟨_, rfl⟩
      · rw [if_neg (by omega), if_pos (by omega)]; exact ⟨_, rfl⟩

/-- Witness for C10: on `c10Board` the current player is White. -/
theorem claimC10_witness :
    c10Board.size = 15 ∧
    c10Board.countVal BLACK = c10Board.countVal WHITE + 1 ∧
    c10Board.determine_current_player = .ok WHITE :=
  ⟨by decide, by decide,
   ((claimC10_current_player c10Board).2 (by decide)).2.1 (by decide)⟩

/-! ## Claim C9: cache lookups never raise -/

/-- C9: a cache lookup is total: it yields the stored value and bumps the
hit counter when the key is present, and yields the supplied default and
bumps the miss counter when it is absent; the other counter is untouched. -/
theorem claimC9_cache_get (c : AnalyzedLRUCache) (k : HashKey)
    (d : Option CacheVal) :
    (∀ v, entriesLookup c.entries k = some v →
        (c.get k d).1 = some v ∧ (c.get k d).2.hits = c.hits + 1 ∧
        (c.get k d).2.misses = c.misses) ∧
    (entriesLookup c.entries k = none →
        (c.get k d).1 = d ∧ (c.get k d).2.misses = c.misses + 1 ∧
        (c.get k d).2.hits = c.hits) := by
  unfold AnalyzedLRUCache.get
  constructor
  · intro v hv; rw [hv]; exact ⟨rfl, rfl, rfl⟩
  · intro hn; rw [hn]; exact ⟨rfl, rfl, rfl⟩

/-- Witness for C9: a hit on the stored key returns its value and
increments only the hit counter. -/
theorem claimC9_witness :
    entriesLookup c9Cache.entries [0] = some ("B", []) ∧
    ((c9Cache.get [0] none).1 = some ("B", []) ∧
     (c9Cache.get [0] none).2.hits = 3 + 1 ∧
     (c9Cache.get [0] none).2.misses = 4) :=
  ⟨rfl, (claimC9_cache_get c9Cache [0] none).1 ("B", []) rfl⟩

/-! ## The structure of `diff` lists -/

lemma diff_eq_ok (A B : ChessBoard) (hsz : A.size = B.size) :
    A.diff B = .ok (diffList A B) := by
  simp only [ChessBoard.diff, diffList, diffCell]
  rw [if_neg (by omega)]

lemma diffCell_mem (A B : ChessBoard) (i j v r c : Nat) :
    (v, r, c) ∈ diffCell A B i j ↔
      (r = i ∧ c = j ∧
        ((A.board i j = v ∧ v ≠ 0 ∧ B.board i j = 0) ∨
         (B.board i j = v ∧ v ≠ 0 ∧ A.board i j = 0))) := by
  unfold diffCell
  split_ifs <;>
    simp only [List.mem_singleton, List.not_mem_nil, Prod.mk.injEq,
      false_iff] <;>
    omega

lemma diffCell_pos (A B : ChessBoard) (i j : Nat) :
    ∀ e ∈ diffCell A B i j, e.2.1 = i ∧ e.2.2 = j := by
  rintro ⟨v, r, c⟩ he
  have h := (diffCell_mem A B i j v r c).mp he
  exact ⟨h.1, h.2.1⟩

lemma diffCell_val_ne_zero (A B : ChessBoard) (i j : Nat) :
    ∀ e ∈ diffCell A B i j, e.1 ≠ 0 := by
  rintro ⟨v, r, c⟩ he
  rcases (diffCell_mem A B i j v r c).mp he with ⟨-, -, h | h⟩ <;>
    exact h.2.1

lemma countP_flatMap_eq {α β : Type} (l : List α) (f : α → List β)
    (p : β → Bool) :
    (l.flatMap f).countP p = (l.map fun a => (f a).countP p).sum := by
  induction l with
  | nil => rfl
  | cons a t ih => simp [List.flatMap_cons, List.countP_append, ih]

lemma sum_map_range_eq_single (n t : Nat) (g : Nat → Nat) (ht : t < n)
    (hg : ∀ k, k ≠ t → g k = 0) :
    ((List.range n).map g).sum = g t := by
  induction n with
  | zero => omega
  | succ m ih =>
    rw [List.range_succ, List.map_append, List.sum_append]
    by_cases hm : t = m
    · subst hm
      have hz : ((List.range t).map g).sum = 0 := by
        apply List.sum_eq_zero
        intro x hx
        rw [List.mem_map] at hx
        obtain ⟨k, hk, rfl⟩ := hx
        exact hg k (by rw [List.mem_range] at hk; omega)
      simp [hz]
    · rw [ih (by omega)]
      simp [hg m (by omega)]

lemma countP_grid (n : Nat) (g : Nat → Nat → List (Nat × Nat × Nat))
    (p : Nat × Nat × Nat → Bool) (r c : Nat) (hr : r < n) (hc : c < n)
    (hzero : ∀ i j, ¬(i = r ∧ j = c) → (g i j).countP p = 0) :
    ((List.range n).flatMap fun i =>
      (List.range n).flatMap fun j => g i j).countP p = (g r c).countP p := by
  simp only [countP_flatMap_eq]
  rw [sum_map_range_eq_single n r _ hr ?oth]
  case oth =>
    intro k hk
    apply List.sum_eq_zero
    intro x hx
    rw [List.mem_map] at hx
    obtain ⟨j, hj, rfl⟩ := hx
    exact hzero k j (by omega)
  rw [sum_map_range_eq_single n c _ hc ?othc]
  case othc =>
    intro k hk
    exact hzero r k (by omega)

lemma countP_grid_zero (n : Nat) (g : Nat → Nat → List (Nat × Nat × Nat))
    (p : Nat × Nat × Nat → Bool)
    (hzero : ∀ i j, i < n → j < n → (g i j).countP p = 0) :
    ((List.range n).flatMap fun i =>
      (List.range n).flatMap fun j => g i j).countP p = 0 := by
  simp only [countP_flatMap_eq]
  apply List.sum_eq_zero
  intro x hx
  rw [List.mem_map] at hx
  obtain ⟨i, hi, rfl⟩ := hx
  rw [List.mem_range] at hi
  apply List.sum_eq_zero
  intro y hy
  rw [List.mem_map] at hy
  obtain ⟨j, hj, rfl⟩ := hy
  rw [List.mem_range] at hj
  exact hzero i j hi hj

lemma diff_mem (A B : ChessBoard) (hsz : A.size = B.size)
    (dl : List (Nat × Nat × Nat)) (hdl : A.diff B = .ok dl) (v r c : Nat) :
    (v, r, c) ∈ dl ↔
      (r < A.size ∧ c < A.size ∧
        ((A.board r c = v ∧ v ≠ 0 ∧ B.board r c = 0) ∨
         (B.board r c = v ∧ v ≠ 0 ∧ A.board r c = 0))) := by
  rw [diff_eq_ok A B hsz] at hdl
  injection hdl with h
  subst h
  simp only [diffList, List.mem_flatMap, List.mem_range, diffCell_mem]
  constructor
  · rintro ⟨i, hi, j, hj, rfl, rfl, hcond⟩
    exact ⟨hi, hj, hcond⟩
  · rintro ⟨hr, hc, hcond⟩
    exact ⟨r, hr, c, hc, rfl, rfl, hcond⟩

lemma diff_countP (A B : ChessBoard) (hsz : A.size = B.size)
    (dl : List (Nat × Nat × Nat)) (hdl : A.diff B = .ok dl) (r c : Nat) :
    dl.countP (fun e => e.2.1 == r && e.2.2 == c) =
      if r < A.size ∧ c < A.size ∧
          ((A.board r c ≠ 0 ∧ B.board r c = 0) ∨
           (A.board r c = 0 ∧ B.board r c ≠ 0)) then 1 else 0 := by
  rw [diff_eq_ok A B hsz] at hdl
  injection hdl with h
  subst h
  simp only [diffList]
  have hcell : ∀ i j : Nat,
      (diffCell A B i j).countP (fun e => e.2.1 == r && e.2.2 == c) =
        if i = r ∧ j = c ∧ ((A.board i j ≠ 0 ∧ B.board i j = 0) ∨
            (A.board i j = 0 ∧ B.board i j ≠ 0)) then 1 else 0 := by
    intro i j
    unfold diffCell
    split_ifs with h1 h2 h3 h4 h5 <;>
      simp only [List.countP_cons, List.countP_nil, Nat.zero_add,
        Bool.and_eq_true, beq_iff_eq, decide_eq_true_eq] <;>
      (try split_ifs) <;> omega
  by_cases hrange : r < A.size ∧ c < A.size
  · rw [countP_grid A.size _ _ r c hrange.1 hrange.2 ?hz]
    case hz =>
      intro i j hij
      rw [hcell i j, if_neg (by omega)]
    rw [hcell r c]
    by_cases hcond : (A.board r c ≠ 0 ∧ B.board r c = 0) ∨
        (A.board r c = 0 ∧ B.board r c ≠ 0)
    · rw [if_pos ⟨rfl, rfl, hcond⟩, if_pos ⟨hrange.1, hrange.2, hcond⟩]
    · rw [if_neg (by tauto), if_neg (by tauto)]
  · rw [if_neg (by tauto)]
    apply countP_grid_zero
    intro i j hi hj
    rw [hcell i j, if_neg]
    rintro ⟨rfl, rfl, -⟩
    exact hrange ⟨hi, hj⟩

/-! ## Claim C6: the diff contract -/

/-- C6: for equal-size boards, `diff` succeeds and returns a deterministic
list holding exactly one `(color, position)` entry for each cell where
exactly one board has a stone (the color is the stone present) and no
other entries; the list is empty iff the boards have identical occupancy. -/
theorem claimC6_diff (A B : ChessBoard) (hsz : A.size = B.size) :
    ∃ dl, A.diff B = .ok dl ∧
      (∀ dl', A.diff B = .ok dl' → dl' = dl) ∧
      (∀ v r c, (v, r, c) ∈ dl ↔
        (r < A.size ∧ c < A.size ∧
          ((A.board r c = v ∧ v ≠ 0 ∧ B.board r c = 0) ∨
           (B.board r c = v ∧ v ≠ 0 ∧ A.board r c = 0)))) ∧
      (∀ r c, dl.countP (fun e => e.2.1 == r && e.2.2 == c) =
        if r < A.size ∧ c < A.size ∧
            ((A.board r c ≠ 0 ∧ B.board r c = 0) ∨
             (A.board r c = 0 ∧ B.board r c ≠ 0)) then 1 else 0) ∧
      (dl = [] ↔ ∀ r c, r < A.size → c < A.size →
        (A.board r c = 0 ↔ B.board r c = 0)) := by
  obtain ⟨dl, hdl⟩ : ∃ dl, A.diff B = .ok dl :=
    ⟨_, diff_eq_ok A B hsz⟩
  refine ⟨dl, hdl, ?_, fun v r c => diff_mem A B hsz dl hdl v r c,
    fun r c => diff_countP A B hsz dl hdl r c, ?_⟩
  · intro dl' hdl'
    rw [hdl] at hdl'
    injection hdl' with h
    exact h.symm
  · constructor
    · intro hnil r c hr hc
      constructor
      · intro hA
        by_contra hB
        have : (B.board r c, r, c) ∈ dl :=
          (diff_mem A B hsz dl hdl _ r c).mpr
            ⟨hr, hc, Or.inr ⟨rfl, hB, hA⟩⟩
        rw [hnil] at this
        exact List.not_mem_nil _ this
      · intro hB
        by_contra hA
        have : (A.board r c, r, c) ∈ dl :=
          (diff_mem A B hsz dl hdl _ r c).mpr
            ⟨hr, hc, Or.inl ⟨rfl, hA, hB⟩⟩
        rw [hnil] at this
        exact List.not_mem_nil _ this
    · intro hocc
      rw [List.eq_nil_iff_forall_not_mem]
      rintro ⟨v, r, c⟩ hmem
      rcases (diff_mem A B hsz dl hdl v r c).mp hmem with
        ⟨hr, hc, ⟨hA, hv, hB⟩ | ⟨hB, hv, hA⟩⟩
      · exact hv (hA ▸ (hocc r c hr hc).mpr hB)
      · exact hv (hB ▸ (hocc r c hr hc).mp hA)

/-- Witness for C6: the diff contract instantiated at `c6A`, `c6B`. -/
theorem claimC6_witness :
    c6A.size = c6B.size ∧
    ∃ dl, c6A.diff c6B = .ok dl ∧
      (∀ dl', c6A.diff c6B = .ok dl' → dl' = dl) ∧
      (∀ v r c, (v, r, c) ∈ dl ↔
        (r < c6A.size ∧ c < c6A.size ∧
          ((c6A.board r c = v ∧ v ≠ 0 ∧ c6B.board r c = 0) ∨
           (c6B.board r c = v ∧ v ≠ 0 ∧ c6A.board r c = 0)))) ∧
      (∀ r c, dl.countP (fun e => e.2.1 == r && e.2.2 == c) =
        if r < c6A.size ∧ c < c6A.size ∧
            ((c6A.board r c ≠ 0 ∧ c6B.board r c = 0) ∨
             (c6A.board r c = 0 ∧ c6B.board r c ≠ 0)) then 1 else 0) ∧
      (dl = [] ↔ ∀ r c, r < c6A.size → c < c6A.size →
        (c6A.board r c = 0 ↔ c6B.board r c = 0)) :=
  ⟨rfl, claimC6_diff c6A c6B rfl⟩

/-! ## Replay machinery -/

lemma place_piece_snd_size (b : ChessBoard) (r c v : Nat) :
    ((b.place_piece r c v).2).size = b.size := by
  unfold ChessBoard.place_piece ChessBoard.setCell
  split_ifs <;> rfl

lemma place_piece_board_ne (b : ChessBoard) (r c v i j : Nat)
    (h : ¬(i = r ∧ j = c)) :
    ((b.place_piece r c v).2).board i j = b.board i j := by
  unfold ChessBoard.place_piece ChessBoard.setCell
  split_ifs <;> simp [h]

lemma place_piece_occupied (b : ChessBoard) (r c v : Nat)
    (h : b.board r c ≠ 0) : (b.place_piece r c v).2 = b := by
  unfold ChessBoard.place_piece
  by_cases h1 : r < b.size ∧ c < b.size
  · rw [if_pos h1, if_pos h]
  · rw [if_neg h1]

lemma place_piece_success (b : ChessBoard) (r c v : Nat)
    (hr : r < b.size) (hc : c < b.size) (hemp : b.board r c = 0) :
    (b.place_piece r c v).2 = b.setCell r c v := by
  unfold ChessBoard.place_piece
  rw [if_pos ⟨hr, hc⟩, if_neg (by omega)]

lemma replay_cons (b : ChessBoard) (e : Nat × Nat × Nat)
    (t : List (Nat × Nat × Nat)) :
    replay b (e :: t) = replay (b.place_piece e.2.1 e.2.2 e.1).2 t := rfl

lemma replay_size : ∀ (l : List (Nat × Nat × Nat)) (b : ChessBoard),
    (replay b l).size = b.size := by
  intro l
  induction l with
  | nil => intro b; rfl
  | cons e t ih => intro b; rw [replay_cons, ih, place_piece_snd_size]

lemma replay_occupied : ∀ (l : List (Nat × Nat × Nat)) (b : ChessBoard)
    (i j : Nat), b.board i j ≠ 0 → (replay b l).board i j = b.board i j := by
  intro l
  induction l with
  | nil => intro b i j h; rfl
  | cons e t ih =>
    intro b i j h
    rw [replay_cons]
    have hb' : ((b.place_piece e.2.1 e.2.2 e.1).2).board i j = b.board i j := by
      by_cases hpos : i = e.2.1 ∧ j = e.2.2
      · obtain ⟨h1, h2⟩ := hpos
        subst h1
        subst h2
        rw [place_piece_occupied b _ _ _ h]
      · exact place_piece_board_ne b _ _ _ i j hpos
    rw [ih _ _ _ (by rw [hb']; exact h), hb']

lemma firstAt_cons (e : Nat × Nat × Nat) (l : List (Nat × Nat × Nat))
    (i j : Nat) :
    firstAt (e :: l) i j =
      if e.2.1 = i ∧ e.2.2 = j then some e.1 else firstAt l i j := rfl

lemma replay_firstAt : ∀ (l : List (Nat × Nat × Nat)) (b : ChessBoard)
    (i j : Nat), i < b.size → j < b.size → b.board i j = 0 →
    (∀ e ∈ l, e.1 ≠ 0) →
    (replay b l).board i j = (firstAt l i j).getD 0 := by
  intro l
  induction l with
  | nil => intro b i j hi hj hemp hnz; exact hemp
  | cons e t ih =>
    intro b i j hi hj hemp hnz
    rw [replay_cons, firstAt_cons]
    by_cases hpos : e.2.1 = i ∧ e.2.2 = j
    · rw [if_pos hpos]
      obtain ⟨h1, h2⟩ := hpos
      subst h1
      subst h2
      rw [place_piece_success b _ _ _ hi hj hemp]
      have hocc : (b.setCell e.2.1 e.2.2 e.1).board e.2.1 e.2.2 = e.1 := by
        simp [ChessBoard.setCell]
      rw [replay_occupied t _ _ _
        (by rw [hocc]; exact hnz e (List.mem_cons_self e t)), hocc]
      rfl
    · rw [if_neg hpos]
      have hb' : ((b.place_piece e.2.1 e.2.2 e.1).2).board i j = b.board i j :=
        place_piece_board_ne b _ _ _ i j
          (fun hc => hpos ⟨hc.1.symm, hc.2.symm⟩)
      exact ih _ i j (by rw [place_piece_snd_size]; exact hi)
        (by rw [place_piece_snd_size]; exact hj) (by rw [hb']; exact hemp)
        (fun e' he' => hnz e' (List.mem_cons_of_mem _ he'))

lemma firstAt_eq_none : ∀ (l : List (Nat × Nat × Nat)) (i j : Nat),
    (∀ e ∈ l, ¬(e.2.1 = i ∧ e.2.2 = j)) → firstAt l i j = none := by
  intro l
  induction l with
  | nil => intro i j h; rfl
  | cons e t ih =>
    intro i j h
    rw [firstAt_cons, if_neg (h e (List.mem_cons_self e t))]
    exact ih i j (fun e' he' => h e' (List.mem_cons_of_mem _ he'))

lemma firstAt_append_some : ∀ (l1 l2 : List (Nat × Nat × Nat)) (i j v : Nat),
    firstAt l1 i j = some v → firstAt (l1 ++ l2) i j = some v := by
  intro l1
  induction l1 with
  | nil => intro l2 i j v h; simp [firstAt] at h
  | cons e t ih =>
    intro l2 i j v h
    rw [List.cons_append, firstAt_cons]
    rw [firstAt_cons] at h
    by_cases hc : e.2.1 = i ∧ e.2.2 = j
    · rw [if_pos hc] at h ⊢
      exact h
    · rw [if_neg hc] at h ⊢
      exact ih l2 i j v h

lemma firstAt_append_none : ∀ (l1 l2 : List (Nat × Nat × Nat)) (i j : Nat),
    firstAt l1 i j = none → firstAt (l1 ++ l2) i j = firstAt l2 i j := by
  intro l1
  induction l1 with
  | nil => intro l2 i j h; rfl
  | cons e t ih =>
    intro l2 i j h
    rw [firstAt_cons] at h
    by_cases hc : e.2.1 = i ∧ e.2.2 = j
    · rw [if_pos hc] at h
      exact absurd h (by simp)
    · rw [if_neg hc] at h
      rw [List.cons_append, firstAt_cons, if_neg hc]
      exact ih l2 i j h

lemma firstAt_flatMap_range : ∀ (n : Nat)
    (f : Nat → List (Nat × Nat × Nat)) (t i j : Nat), t < n →
    (∀ k, k ≠ t → ∀ e ∈ f k, ¬(e.2.1 = i ∧ e.2.2 = j)) →
    firstAt ((List.range n).flatMap f) i j = firstAt (f t) i j := by
  intro n
  induction n with
  | zero => intro f t i j ht; omega
  | succ m ih =>
    intro f t i j ht hoth
    rw [List.range_succ, List.flatMap_append]
    have hsing : (([m] : List Nat).flatMap f) = f m := by simp
    rw [hsing]
    by_cases hm : t = m
    · subst hm
      have hnone : firstAt ((List.range t).flatMap f) i j = none := by
        apply firstAt_eq_none
        intro e he
        rw [List.mem_flatMap] at he
        obtain ⟨k, hk, hke⟩ := he
        rw [List.mem_range] at hk
        exact hoth k (by omega) e hke
      rw [firstAt_append_none _ _ _ _ hnone]
    · have ht' : t < m := by omega
      cases hft : firstAt (f t) i j with
      | some v =>
        rw [firstAt_append_some _ _ _ _ _ ((ih f t i j ht' hoth).trans hft)]
      | none =>
        rw [firstAt_append_none _ _ _ _ ((ih f t i j ht' hoth).trans hft)]
        exact firstAt_eq_none (f m) i j (hoth m (by omega))

lemma firstAt_grid (n : Nat) (g : Nat → Nat → List (Nat × Nat × Nat))
    (r c : Nat) (hr : r < n) (hc : c < n)
    (hpos : ∀ i j, ∀ e ∈ g i j, e.2.1 = i ∧ e.2.2 = j) :
    firstAt ((List.range n).flatMap fun i =>
      (List.range n).flatMap fun j => g i j) r c = firstAt (g r c) r c := by
  rw [firstAt_flatMap_range n _ r r c hr ?hrow]
  case hrow =>
    intro k hk e he hcon
    rw [List.mem_flatMap] at he
    obtain ⟨j, hj, hje⟩ := he
    exact hk (((hpos k j e hje).1).symm.trans hcon.1)
  rw [firstAt_flatMap_range n _ c r c hc ?hcol]
  case hcol =>
    intro k hk e he hcon
    exact hk (((hpos r k e he).2).symm.trans hcon.2)

lemma firstAt_diffCell_self (A B : ChessBoard) (i j : Nat) :
    firstAt (diffCell A B i j) i j =
      if A.board i j ≠ 0 ∧ B.board i j = 0 then some (A.board i j)
      else if A.board i j = 0 ∧ B.board i j ≠ 0 then some (B.board i j)
      else none := by
  unfold diffCell
  split_ifs <;> simp [firstAt]

lemma diff_list_val_ne_zero (A B : ChessBoard) :
    ∀ e ∈ diffList A B, e.1 ≠ 0 := by
  intro e he
  rw [diffList, List.mem_flatMap] at he
  obtain ⟨i, -, he⟩ := he
  rw [List.mem_flatMap] at he
  obtain ⟨j, -, he⟩ := he
  exact diffCell_val_ne_zero A B i j e he

/-! ## Bridges between the scan booleans and their propositions -/

lemma has_extra_eq (A S : ChessBoard) (hsz : A.size = S.size) :
    A.has_extra_pieces S = .ok (extraScan A S) := by
  unfold ChessBoard.has_extra_pieces extraScan
  rw [if_neg (by omega)]

lemma extra_bool_iff (A S : ChessBoard) :
    extraScan A S = true ↔ ExtraProp A S := by
  simp only [extraScan, ExtraProp, List.any_eq_true, List.mem_range,
    Bool.and_eq_true, bne_iff_ne, beq_iff_eq]

lemma equals_true_iff (X Y : ChessBoard) :
    X.equals Y = true ↔
      (X.size = Y.size ∧ ∀ i, i < X.size → ∀ j, j < X.size →
        X.board i j = Y.board i j) := by
  unfold ChessBoard.equals
  simp only [Bool.and_eq_true, beq_iff_eq, List.all_eq_true, List.mem_range]

/-! ## The two branches of the sync phase -/

lemma syncPhase_extra (s : EngineState) (A : ChessBoard)
    (hsz : A.size = s.cache_board.size) (hx : ExtraProp A s.cache_board) :
    syncPhase s A =
      ⟨none,
       { s with
          cache_board :=
            replay s.cache_board.reset (diffList A s.cache_board.reset),
          refresh_total := s.refresh_total + 1 },
       Command.clear_board ::
         playCommands (diffList A s.cache_board.reset) A.get_size⟩ := by
  have hb : extraScan A s.cache_board = true :=
    (extra_bool_iff A s.cache_board).mpr hx
  unfold syncPhase
  rw [has_extra_eq A s.cache_board hsz, hb,
    diff_eq_ok A s.cache_board.reset hsz]
  rfl

lemma syncPhase_noextra (s : EngineState) (A : ChessBoard)
    (hsz : A.size = s.cache_board.size) (hx : ¬ ExtraProp A s.cache_board) :
    syncPhase s A =
      ⟨none, { s with cache_board := replay s.cache_board (diffList A s.cache_board) },
       playCommands (diffList A s.cache_board) A.get_size⟩ := by
  have hb : extraScan A s.cache_board = false := by
    cases hbool : extraScan A s.cache_board with
    | true => exact absurd ((extra_bool_iff A s.cache_board).mp hbool) hx
    | false => rfl
  unfold syncPhase
  rw [has_extra_eq A s.cache_board hsz, hb, diff_eq_ok A s.cache_board hsz]
  rfl

/-- Replaying the diff of `A` against `S` onto `S` reproduces `A`, provided
`S`'s stones are a subset of `A`'s that agrees with `A` in color. -/
lemma replay_diffList_equals (A S : ChessBoard) (hsz : A.size = S.size)
    (hsub : ∀ i j, i < A.size → j < A.size → S.board i j ≠ 0 →
        A.board i j ≠ 0)
    (hagree : ∀ i j, i < A.size → j < A.size → S.board i j ≠ 0 →
        A.board i j ≠ 0 → S.board i j = A.board i j) :
    (replay S (diffList A S)).equals A = true := by
  rw [equals_true_iff]
  refine ⟨by rw [replay_size]; omega, ?_⟩
  intro i hi j hj
  rw [replay_size] at hi hj
  by_cases hocc : S.board i j ≠ 0
  · rw [replay_occupied _ _ _ _ hocc]
    exact hagree i j (by omega) (by omega) hocc
      (hsub i j (by omega) (by omega) hocc)
  · push_neg at hocc
    have h1 : (replay S (diffList A S)).board i j =
        (firstAt (diffList A S) i j).getD 0 :=
      replay_firstAt (diffList A S) S i j (by omega) (by omega) hocc
        (diff_list_val_ne_zero A S)
    have h2 : firstAt (diffList A S) i j = firstAt (diffCell A S i j) i j :=
      firstAt_grid A.size (diffCell A S) i j (by omega) (by omega)
        (fun a b => diffCell_pos A S a b)
    rw [h1, h2, firstAt_diffCell_self]
    by_cases hA : A.board i j ≠ 0
    · rw [if_pos ⟨hA, hocc⟩]
      rfl
    · push_neg at hA
      rw [if_neg (by tauto), if_neg (by tauto)]
      exact hA.symm

/-! ## Claim C1: the sync phase reproduces the observed board -/

/-- C1 (amended): for an observed board `A` of the shadow's size, the sync
phase of `query` completes without error and leaves the shadow board equal
to `A` cell for cell, provided every cell occupied in both the prior
shadow and `A` holds the same color in both (without this proviso the
replay can complete with a mismatched shadow, see the counterexample). -/
theorem claimC1_sync (s : EngineState) (A : ChessBoard)
    (hsz : A.size = s.cache_board.size)
    (hagree : ∀ i j, i < A.size → j < A.size →
        s.cache_board.board i j ≠ 0 → A.board i j ≠ 0 →
        s.cache_board.board i j = A.board i j) :
    (syncPhase s A).err = none ∧
    ((syncPhase s A).state.cache_board).equals A = true := by
  by_cases hx : ExtraProp A s.cache_board
  · rw [syncPhase_extra s A hsz hx]
    refine ⟨rfl, ?_⟩
    exact replay_diffList_equals A s.cache_board.reset hsz
      (fun i j _ _ h => absurd rfl h)
      (fun i j _ _ h _ => absurd rfl h)
  · rw [syncPhase_noextra s A hsz hx]
    refine ⟨rfl, ?_⟩
    apply replay_diffList_equals A s.cache_board hsz
    · intro i j hi hj hS
      by_contra hA
      exact hx ⟨i, hi, j, hj, hS, hA⟩
    · exact hagree

/-- Witness for C1 (amended): syncing a one-stone board against an empty
shadow reproduces it exactly. -/
theorem claimC1_sync_witness :
    (syncPhase c1EmptyState c1Observed).err = none ∧
    ((syncPhase c1EmptyState c1Observed).state.cache_board).equals
      c1Observed = true :=
  claimC1_sync c1EmptyState c1Observed rfl (fun _ _ _ _ h _ => absurd rfl h)

/-- Counterexample to C1 as stated: when the shadow holds a white stone
where the observed board holds a black one, the replay loop completes
(no reset, empty diff) yet the shadow does not equal the observed board. -/
theorem claimC1_counterexample :
    (syncPhase c1State c1Observed).err = none ∧
    ((syncPhase c1State c1Observed).state.cache_board).equals
      c1Observed = false := by
  decide

/-! ## Claim C3: when a reset happens -/

/-- C3: on equal sizes, the sync phase sends `clear_board` (first), rebuilds
the shadow from the empty board and increments the refresh counter exactly
when the shadow holds a stone at a cell that is empty in the observed
board; when the shadow is a subset, the refresh counter is unchanged and
every command sent is an incremental `play`. -/
theorem claimC3_reset_iff (s : EngineState) (A : ChessBoard)
    (hsz : A.size = s.cache_board.size) :
    (ExtraProp A s.cache_board ↔
      ((syncPhase s A).sent.head? = some Command.clear_board ∧
       (syncPhase s A).state.refresh_total = s.refresh_total + 1 ∧
       (syncPhase s A).state.cache_board =
         replay s.cache_board.reset (diffList A s.cache_board.reset))) ∧
    (¬ ExtraProp A s.cache_board →
      ((syncPhase s A).state.refresh_total = s.refresh_total ∧
       ∀ c ∈ (syncPhase s A).sent, ∃ color g, c = Command.play color g)) := by
  by_cases hx : ExtraProp A s.cache_board
  · rw [syncPhase_extra s A hsz hx]
    exact ⟨⟨fun _ => ⟨rfl, rfl, rfl⟩, fun _ => hx⟩, fun h => absurd hx h⟩
  · rw [syncPhase_noextra s A hsz hx]
    constructor
    · constructor
      · intro h
        exact absurd h hx
      · rintro ⟨hhead, -, -⟩
        exfalso
        rcases hli : diffList A s.cache_board with - | ⟨e, t⟩ <;>
          rw [hli] at hhead <;> simp [playCommands] at hhead
    · intro _
      refine ⟨rfl, ?_⟩
      intro c hc
      simp only [playCommands, List.mem_map] at hc
      obtain ⟨e, -, rfl⟩ := hc
      exact ⟨_, _, rfl⟩

/-- Witness for C3: a shadow with a stray white stone against an empty
observed board triggers the reset branch, and an empty shadow does not. -/
theorem claimC3_witness :
    (ExtraProp (mkBoard 1) c1State.cache_board ↔
      ((syncPhase c1State (mkBoard 1)).sent.head? =
         some Command.clear_board ∧
       (syncPhase c1State (mkBoard 1)).state.refresh_total =
         c1State.refresh_total + 1 ∧
       (syncPhase c1State (mkBoard 1)).state.cache_board =
         replay c1State.cache_board.reset
           (diffList (mkBoard 1) c1State.cache_board.reset))) ∧
    (¬ ExtraProp (mkBoard 1) c1State.cache_board →
      ((syncPhase c1State (mkBoard 1)).state.refresh_total =
         c1State.refresh_total ∧
       ∀ c ∈ (syncPhase c1State (mkBoard 1)).sent,
         ∃ color g, c = Command.play color g)) :=
  claimC3_reset_iff c1State (mkBoard 1) rfl

/-! ## Claim C4: replay order and color alternation -/

lemma flatMap_congr_fun {α β : Type} (l : List α) (f g : α → List β)
    (h : ∀ a ∈ l, f a = g a) : l.flatMap f = l.flatMap g := by
  induction l with
  | nil => rfl
  | cons a t ih =>
    rw [List.flatMap_cons, List.flatMap_cons, h a (List.mem_cons_self a t),
      ih (fun x hx => h x (List.mem_cons_of_mem _ hx))]

lemma reset_board (b : ChessBoard) (i j : Nat) : (b.reset).board i j = 0 :=
  rfl

lemma diffCell_reset (A S : ChessBoard) (i j : Nat) :
    diffCell A S.reset i j =
      if A.board i j ≠ 0 then [(A.board i j, i, j)] else [] := by
  simp only [diffCell, reset_board]
  split_ifs <;> first | rfl | simp_all

lemma diffList_reset (A S : ChessBoard) :
    diffList A S.reset = rowMajorStones A := by
  simp only [diffList, rowMajorStones]
  apply flatMap_congr_fun
  intro i _
  apply flatMap_congr_fun
  intro j _
  exact diffCell_reset A S i j

/-- C4 (amended): after a reset the play commands replay exactly the
observed board's stones in row-major scan order — their colors are the
row-major color sequence of the board, which the counting invariant alone
does not force to alternate (see the counterexample). -/
theorem claimC4_rowmajor (s : EngineState) (A : ChessBoard)
    (hsz : A.size = s.cache_board.size) (hx : ExtraProp A s.cache_board) :
    (syncPhase s A).sent =
      Command.clear_board :: playCommands (rowMajorStones A) A.get_size := by
  rw [syncPhase_extra s A hsz hx, diffList_reset A s.cache_board]

/-- Witness for C4 (amended): the reset branch replays row-major. -/
theorem claimC4_witness :
    (syncPhase c4ResetState c4Observed).sent =
      Command.clear_board ::
        playCommands (rowMajorStones c4Observed) c4Observed.get_size :=
  claimC4_rowmajor c4ResetState c4Observed rfl
    ⟨1, by decide, 1, by decide, by decide, by decide⟩

/-- Counterexample to C4 as stated: a 2×2 board whose counts satisfy the
alternation invariant produces four play commands colored B, B, W, W in
the replay — more than one command, and not strictly alternating. -/
theorem claimC4_counterexample :
    c4Board.is_effective_chessboard = true ∧
    (playColors (syncPhase c4State c4Board).sent).length > 1 ∧
    alternatesBW true (playColors (syncPhase c4State c4Board).sent) =
      false := by
  decide

/-! ## Claim C8: board-size mismatch is recoverable -/

/-- C8: when the observed board's size differs from the shadow's, `query`
raises the size-mismatch error before sending anything: no command is
sent, and the shadow board, refresh counter and cache are unchanged (only
the query counter advances). -/
theorem claimC8_size_mismatch (s0 : EngineState) (A : ChessBoard)
    (hsz : A.size ≠ s0.cache_board.size) :
    (query s0 A).result = .error "两个棋盘大小不一致" ∧
    (query s0 A).sent = [] ∧
    (query s0 A).state.cache_board = s0.cache_board ∧
    (query s0 A).state.refresh_total = s0.refresh_total ∧
    (query s0 A).state.cache = s0.cache ∧
    (query s0 A).state.query_total = s0.query_total + 1 := by
  have hx : A.has_extra_pieces s0.cache_board =
      .error "两个棋盘大小不一致" := by
    unfold ChessBoard.has_extra_pieces
    rw [if_pos hsz]
  simp only [query, syncPhase]
  rw [hx]
  exact ⟨rfl, rfl, rfl, rfl, rfl, rfl⟩

/-- Witness for C8: a 9×9 observation against the 15×15 shadow. -/
theorem claimC8_witness :
    (mkBoard 9).size ≠ c8State.cache_board.size ∧
    (query c8State (mkBoard 9)).result = .error "两个棋盘大小不一致" ∧
    (query c8State (mkBoard 9)).sent = [] ∧
    (query c8State (mkBoard 9)).state.cache_board = c8State.cache_board :=
  ⟨by decide,
   (claimC8_size_mismatch c8State (mkBoard 9) (by decide)).1,
   (claimC8_size_mismatch c8State (mkBoard 9) (by decide)).2.1,
   (claimC8_size_mismatch c8State (mkBoard 9) (by decide)).2.2.1⟩

/-! ## Claim C2: no recommendation on a mismatched shadow -/

lemma query_state_cache_board (s0 : EngineState) (A : ChessBoard) :
    (query s0 A).state.cache_board =
      (syncPhase { s0 with query_total := s0.query_total + 1 } A).state.cache_board := by
  simp only [query]
  split
  · rfl
  · split
    · rfl
    · split
      · rfl
      · split
        · rfl
        · split <;> rfl

lemma query_ok_equals (s0 : EngineState) (A : ChessBoard) (val : CacheVal)
    (h : (query s0 A).result = .ok val) :
    ((syncPhase { s0 with query_total := s0.query_total + 1 } A).state.cache_board).equals
      A = true := by
  simp only [query] at h
  split at h
  · simp at h
  · split at h
    · simp at h
    · rename_i hguard
      simpa using hguard

/-- C2: whenever `query` returns a `(player, candidates)` result, the
post-replay equality check passed — the shadow board equals the observed
board cell for cell; on a mismatch the check raises instead and no result
is returned. -/
theorem claimC2_no_result_on_mismatch (s0 : EngineState) (A : ChessBoard)
    (val : CacheVal) (h : (query s0 A).result = .ok val) :
    ((query s0 A).state.cache_board).equals A = true := by
  rw [query_state_cache_board]
  exact query_ok_equals s0 A val h

/-- Witness for C2: a query answered from the cache on the empty board. -/
theorem claimC2_witness :
    (query c2State (mkBoard 1)).result = .ok ("B", []) ∧
    ((query c2State (mkBoard 1)).state.cache_board).equals
      (mkBoard 1) = true :=
  ⟨by rfl,
   claimC2_no_result_on_mismatch c2State (mkBoard 1) ("B", []) (by rfl)⟩

/-! ## Claim C7: confidence-gated cache insertion -/

/-- C7: when the reader loop processes a parsed line without raising, the
shared latest-analysis slot is always overwritten with the built candidate
list; the cache gains the entry (and `stop` is sent) exactly when that
list is nonempty with its top candidate's visits strictly above the
threshold, and is untouched otherwise. -/
theorem claimC7_threshold_gate (s : EngineState) (res_list : List InfoRecord)
    (s' : EngineState) (cmds : List Command)
    (h : handler_line s res_list = .ok (s', cmds)) :
    ∃ cp bml, s'.best_moves_shared = some (cp, bml) ∧
      (topVisitsExceeds bml s.visits_threshold = true →
        s'.cache = s.cache.set s.cache_board.get_hash (cp, bml) ∧
        cmds = [Command.stop]) ∧
      (topVisitsExceeds bml s.visits_threshold = false →
        s'.cache = s.cache ∧ cmds = []) := by
  simp only [handler_line] at h
  split at h
  · exact absurd h (by simp)
  · rename_i p hp
    split at h
    · exact absurd h (by simp)
    · rename_i bml hbml
      split at h
      · rename_i hcond
        injection h with hpair
        injection hpair with hs hc
        subst hs
        subst hc
        refine ⟨chess2color p, bml, rfl, fun _ => ⟨rfl, rfl⟩, fun hf => ?_⟩
        rw [hcond] at hf
        exact Bool.noConfusion hf
      · rename_i hcond
        injection h with hpair
        injection hpair with hs hc
        subst hs
        subst hc
        refine ⟨chess2color p, bml, rfl, fun ht => absurd ht hcond,
          fun _ => ⟨rfl, rfl⟩⟩

/-- Witness for C7: with threshold 1000, the `J10` line with 500 visits
does not touch the cache (but fills the shared slot), while the same line
with 5000 visits inserts the entry. -/
theorem claimC7_witness :
    (handler_line c7State [c7Rec500] = .ok (c7Out500, []) ∧
     c7Out500.cache = c7State.cache) ∧
    (handler_line c7State [c7Rec5000] = .ok (c7Out5000, [Command.stop]) ∧
     c7Out5000.cache =
       c7State.cache.set c7State.cache_board.get_hash
         ("B", [c7Item5000])) := by
  constructor
  · refine ⟨rfl, ?_⟩
    obtain ⟨cp, bml, hsh, -, hno⟩ :=
      claimC7_threshold_gate c7State [c7Rec500] c7Out500 [] rfl
    rw [show c7Out500.best_moves_shared = some ("B", [c7Item500]) from rfl]
      at hsh
    injection hsh with hpair
    obtain ⟨h1, h2⟩ := Prod.mk.injEq .. |>.mp hpair.symm
    subst h1
    subst h2
    exact (hno (by decide)).1
  · refine ⟨rfl, ?_⟩
    obtain ⟨cp, bml, hsh, hyes, -⟩ :=
      claimC7_threshold_gate c7State [c7Rec5000] c7Out5000 [Command.stop] rfl
    rw [show c7Out5000.best_moves_shared = some ("B", [c7Item5000]) from rfl]
      at hsh
    injection hsh with hpair
    obtain ⟨h1, h2⟩ := Prod.mk.injEq .. |>.mp hpair.symm
    subst h1
    subst h2
    exact (hyes (by decide)).1

end GomokuHelper
